import Mathlib

/-!
Shallow embedding of the dvid-import repository.

The repository holds two Go program variants:

* `src/main.go` ("dvid-import"): per-slab tiling — an assembled slab is cut
  into XY tiles of at most `sendSize = 1024` voxels per edge and each tile is
  POSTed to the destination store.
* `src/unnamed/part_000` ("raveler-import"): multi-directory stitching — the
  slab buffer is zeroed, each configured directory whose Z range intersects
  the slab contributes its planes, and the whole slab is POSTed once filled.

Modelling conventions: Go `int` is `Int`; byte buffers are total functions
`Buf = Int → Nat` giving the byte value at an index (all copies performed by
the programs are in bounds, which the programs establish via their size
checks before copying); a decompressed artifact is a `List Nat`; the
filesystem plus gzip layer is an environment `String → Option FileData`;
HTTP POSTs are modelled as succeeding and are recorded as `Post` values in
program order.
-/

/-- A Go format template with a single zero-padded numeric placeholder:
the Go string `"bodies-z%05d-18534x10786x32.gz"` is modelled as
`⟨"bodies-z", 5, "-18534x10786x32.gz"⟩`. -/
structure Template where
  pre : String
  width : Nat
  post : String
deriving DecidableEq

/-- Zero padding of `fmt.Sprintf`'s `%0Nd` directive. -/
def padZeros (w : Nat) (s : String) : String :=
  String.mk (List.replicate (w - s.length) '0') ++ s

/-- `fmt.Sprintf(template, z)` for a template with a single `%0Nd`
placeholder. -/
def formatTemplate (t : Template) (z : Int) : String :=
  t.pre ++ padZeros t.width (toString z) ++ t.post

/-- `filepath.Join(p, f)` for already-clean components. -/
def joinPath (p f : String) : String :=
  if p = "" then f else p ++ "/" ++ f

/-- The `SlabDir` configuration record (identical in both variants). -/
structure SlabDir where
  Path : String
  BegZ : Int
  EndZ : Int
  Template : Template
deriving DecidableEq

/-- The `Config` configuration record (identical in both variants). -/
structure Config where
  URI : String
  SizeX : Int
  SizeY : Int
  Thickness : Int
  BegZ : Int
  EndZ : Int
  Directories : List SlabDir
deriving DecidableEq

/-- A source artifact as seen through `os.Open` plus `gzip`: `raw` is the
on-disk (compressed) byte stream, and `gunzip` is `some data` when gzip
decompression succeeds producing `data`, or `none` when the compressed
stream is malformed or truncated. -/
structure FileData where
  raw : List Nat
  gunzip : Option (List Nat)

/-- The filesystem: maps a filename to its artifact, `none` = not found. -/
abbrev Env := String → Option FileData

/-- A byte buffer: byte value at each index. -/
abbrev Buf := Int → Nat

/-- Go `copy(dst[dOff:dOff+len], src[sOff:sOff+len])` with `dst` a buffer
and `src` a byte list (in-bounds semantics). -/
def copySeg (dst : Buf) (src : List Nat) (dOff sOff len : Int) : Buf :=
  fun i => if dOff ≤ i ∧ i < dOff + len then src.getD (sOff + (i - dOff)).toNat 0 else dst i

/-- A recorded HTTP POST: destination URL, byte length of the body, and the
body bytes. -/
structure Post where
  url : String
  len : Int
  bytes : Buf

/-- Per-artifact failures surfaced by `processSlab` (either variant). -/
inductive PErr where
  | fileMissing : PErr
  | gunzipFailed : PErr
  | sizeMismatch (expected got : Int) : PErr
deriving DecidableEq

/-- The configuration ordering loop in `main` (identical in both variants):
`maxZ := 0`; a directory with `BegZ <= maxZ` causes `os.Exit(1)`; a
directory with `EndZ <= BegZ` only prints a message and does NOT exit;
`maxZ = dir.EndZ` after each directory.  Result `true` means the program
survives the loop (no exit). -/
def checkDirsFrom (maxZ : Int) : List SlabDir → Bool
  | [] => true
  | d :: rest => if d.BegZ ≤ maxZ then false else checkDirsFrom d.EndZ rest

/-- The whole directory-ordering validation, starting from `maxZ = 0`. -/
def validateDirs (dirs : List SlabDir) : Bool :=
  checkDirsFrom 0 dirs

/-- The pre-processing gate of `main` (identical in both variants): the
program reaches the slab-processing loop iff the configuration has at
least one directory, `Thickness` equals the `blocksize` flag, and the
ordering loop does not exit.  (`true` = slab processing starts.) -/
def mainGate (cfg : Config) (blocksize : Int) : Bool :=
  decide (1 ≤ cfg.Directories.length) && decide (cfg.Thickness = blocksize)
    && validateDirs cfg.Directories

/-- A tile rectangle within a slab's XY extent. -/
structure TileRect where
  ox : Int
  oy : Int
  w : Int
  h : Int
deriving DecidableEq

/-- Offsets `o, o + step, …` while `< extent`, mirroring the tiling loops
`for oy := 0; oy < SizeY; oy += sendSize` of `main.go`.  Fuel-based
structural recursion; `extent.toNat` fuel always suffices when `step ≥ 1`,
which is how `tileGrid` calls it. -/
def offsetsFrom (extent step : Int) : Int → Nat → List Int
  | _, 0 => []
  | o, n + 1 => if o < extent then o :: offsetsFrom extent step (o + step) n else []

/-- Clipped tile edge length: `main.go` computes `endY := oy + sendSize;
if endY > SizeY { endY = SizeY }` and uses `endY - oy` (and on the X axis
`span -= ox + sendSize - SizeX` when `ox + sendSize > SizeX`, which equals
the same clipping). -/
def tileW (extent o maxEdge : Int) : Int :=
  if o + maxEdge > extent then extent - o else maxEdge

/-- The tile enumeration of `processSlab` in `main.go` (`oy` outer loop,
`ox` inner loop, both stepping by the maximum edge), i.e. the spec's
`tileGrid`. -/
def tileGrid (extentX extentY maxEdge : Int) : List TileRect :=
  (offsetsFrom extentY maxEdge 0 extentY.toNat).flatMap fun oy =>
    (offsetsFrom extentX maxEdge 0 extentX.toNat).map fun ox =>
      ⟨ox, oy, tileW extentX ox maxEdge, tileW extentY oy maxEdge⟩

/-- Membership of the XY point `(x, y)` in a tile. -/
def inTile (t : TileRect) (x y : Int) : Prop :=
  t.ox ≤ x ∧ x < t.ox + t.w ∧ t.oy ≤ y ∧ y < t.oy + t.h

instance (t : TileRect) (x y : Int) : Decidable (inTile t x y) := by
  unfold inTile; infer_instance

/-- Intersection length (number of Z planes) of a slab with one directory:
`0` for a disjoint directory, else `endZ - begZ + 1` with
`begZ = max(slabBegZ, dir.BegZ)`, `endZ = min(slabEndZ, dir.EndZ)` exactly
as computed in the multi-directory `processSlab` (clamped at `0` by `toNat`
just as the Go `for volZ := begZ; volZ <= endZ` loop never runs when
`begZ > endZ`). -/
def coverLen (slabBegZ slabEndZ : Int) (dir : SlabDir) : Nat :=
  if slabBegZ > dir.EndZ ∨ slabEndZ < dir.BegZ then 0
  else ((if slabEndZ > dir.EndZ then dir.EndZ else slabEndZ) -
        (if slabBegZ < dir.BegZ then dir.BegZ else slabBegZ) + 1).toNat

/-- Total number of slab planes covered across a directory list. -/
def coverSum (slabBegZ slabEndZ : Int) (dirs : List SlabDir) : Nat :=
  (dirs.map (coverLen slabBegZ slabEndZ)).sum

/-- The fast-path condition of the multi-directory `processSlab`: the
directory's Z range covers the whole slab, so the clamped intersection is
the slab itself (`begZ == slabBegZ && endZ == slabEndZ`). -/
def exactCover (slabBegZ slabEndZ : Int) (dir : SlabDir) : Prop :=
  dir.BegZ ≤ slabBegZ ∧ slabEndZ ≤ dir.EndZ

instance (a b : Int) (d : SlabDir) : Decidable (exactCover a b d) := by
  unfold exactCover; infer_instance

namespace Raveler

/-- The filename opened by the multi-directory `processSlab`:
`filename := fmt.Sprintf(dir.Template, slabBegZ)` — `dir.Path` does not
appear, so the file is resolved relative to the working directory. -/
def filename (dir : SlabDir) (slabBegZ : Int) : String :=
  formatTemplate dir.Template slabBegZ

/-- The per-plane copy loop of the multi-directory `processSlab`:
`for volZ := begZ; volZ <= endZ; volZ++ { z := (volZ - slabBegZ) * sliceBytes;
copy(bytebuf[z:z+sliceBytes], data[z:z+sliceBytes]) }`.  The fuel is the
exact iteration count `(endZ - begZ + 1).toNat`. -/
def fillPlanes (data : List Nat) (slabBegZ sliceBytes : Int) : Int → Nat → Buf → Buf
  | _, 0, buf => buf
  | volZ, n + 1, buf =>
      fillPlanes data slabBegZ sliceBytes (volZ + 1) n
        (copySeg buf data ((volZ - slabBegZ) * sliceBytes)
          ((volZ - slabBegZ) * sliceBytes) sliceBytes)

/-- Result of the directory loop: final slab buffer, POSTs made (in
program order), and the error returned, if any. -/
structure DirsResult where
  buf : Buf
  posts : List Post
  err : Option PErr

/-- The directory loop of the multi-directory `processSlab` (part_000).
Per intersecting directory: open `fmt.Sprintf(dir.Template, slabBegZ)`
(note: `dir.Path` is not used to form the filename); if the directory
covers the slab exactly, POST the raw (still gzip-compressed) file and
return, with no decompression and no size check; otherwise decompress,
check the size against `sliceBytes * blocksize`, copy the intersecting
planes, and POST the slab buffer only when `zfilled == blocksize`. -/
def processDirs (cfg : Config) (blocksize : Int) (env : Env) (dryrun : Bool)
    (slabBegZ : Int) : List SlabDir → Buf → Int → List Post → DirsResult
  | [], buf, _, posts => ⟨buf, posts, none⟩
  | dir :: rest, buf, zfilled, posts =>
    let sliceBytes := cfg.SizeX * cfg.SizeY * 8
    let slabEndZ := slabBegZ + blocksize - 1
    let url := cfg.URI ++ "/0_0_" ++ toString slabBegZ
    if slabBegZ > dir.EndZ ∨ slabEndZ < dir.BegZ then
      processDirs cfg blocksize env dryrun slabBegZ rest buf zfilled posts
    else
      let begZ := if slabBegZ < dir.BegZ then dir.BegZ else slabBegZ
      let endZ := if slabEndZ > dir.EndZ then dir.EndZ else slabEndZ
      match env (filename dir slabBegZ) with
      | none => ⟨buf, posts, some .fileMissing⟩
      | some file =>
        if begZ = slabBegZ ∧ endZ = slabEndZ then
          ⟨buf,
           (if dryrun then posts
            else posts ++ [⟨url, (file.raw.length : Int), fun i => file.raw.getD i.toNat 0⟩]),
           none⟩
        else
          match file.gunzip with
          | none => ⟨buf, posts, some .gunzipFailed⟩
          | some data =>
            if (data.length : Int) ≠ sliceBytes * blocksize then
              ⟨buf, posts, some (.sizeMismatch (sliceBytes * blocksize) (data.length : Int))⟩
            else
              let buf1 := fillPlanes data slabBegZ sliceBytes begZ ((endZ - begZ + 1).toNat) buf
              let zf1 := zfilled + ((endZ - begZ + 1).toNat : Int)
              if zf1 = blocksize then
                ⟨buf1,
                 (if dryrun then posts
                  else posts ++ [⟨url, cfg.SizeX * cfg.SizeY * cfg.Thickness * 8, buf1⟩]),
                 none⟩
              else
                processDirs cfg blocksize env dryrun slabBegZ rest buf1 zf1 posts

/-- The zeroing loop `for i := range bytebuf { bytebuf[i] = 0 }` applied to
the slab buffer reused from the previous iteration. -/
def zeroBuf (prev : Buf) : Buf :=
  fun _ => (fun _ => 0 : Buf) (prev 0)

/-- `processSlab` of the multi-directory variant: zero the reused slab
buffer, then run the directory loop with `zfilled = 0`. -/
def processSlab (cfg : Config) (blocksize : Int) (env : Env) (dryrun : Bool)
    (prev : Buf) (slabBegZ : Int) : DirsResult :=
  processDirs cfg blocksize env dryrun slabBegZ cfg.Directories (zeroBuf prev) 0 []

end Raveler

namespace Dvid

/-- The filename opened by `processSlab` of `main.go`:
`filename := filepath.Join(dir.Path, fmt.Sprintf(dir.Template, slabBegZ))`. -/
def filename (dir : SlabDir) (slabBegZ : Int) : String :=
  joinPath dir.Path (formatTemplate dir.Template slabBegZ)

/-- `sendSize := 1024` in `processSlab` of `main.go`. -/
def sendSize : Int := 1024

/-- One Y band of the tile copy loop of `main.go`:
`for sy := oy; sy < endY; sy++ { si := sz*xyBytes + sy*xBytes;
bi := sz*sxyBytes + sy*sxBytes; copy(bytebuf[bi:bi+span], data[si:si+span]) }`.
Note the buffer-side row offset uses the absolute `sy` and stride
`sxBytes = sendSize*8`, not a tile-relative row or the tile's width. -/
def tileRows (data : List Nat) (xBytes sxBytes span szSrc szDst : Int) :
    Int → Nat → Buf → Buf
  | _, 0, buf => buf
  | sy, n + 1, buf =>
      tileRows data xBytes sxBytes span szSrc szDst (sy + 1) n
        (copySeg buf data (szDst + sy * sxBytes) (szSrc + sy * xBytes) span)

/-- The Z loop of the tile copy (`for sz := 0; sz < blocksize; sz++`). -/
def tileZ (data : List Nat) (xBytes xyBytes sxBytes sxyBytes span oy endY : Int) :
    Int → Nat → Buf → Buf
  | _, 0, buf => buf
  | sz, n + 1, buf =>
      tileZ data xBytes xyBytes sxBytes sxyBytes span oy endY (sz + 1) n
        (tileRows data xBytes sxBytes span (sz * xyBytes) (sz * sxyBytes)
          oy ((endY - oy).toNat) buf)

/-- `url := fmt.Sprintf("%s/%d_%d_%d", config.URI, ox, oy, slabBegZ)`. -/
def tileUrl (cfg : Config) (ox oy slabBegZ : Int) : String :=
  cfg.URI ++ "/" ++ toString ox ++ "_" ++ toString oy ++ "_" ++ toString slabBegZ

/-- The body of the tile loops of `main.go`'s `processSlab`: allocate a
zeroed POST buffer of `sxyzBytes = (sendSize*8) * sendSize * blocksize`
bytes (a full-size tile buffer regardless of the clipped width/height),
run the strided row copies, and POST it to `tileUrl`. -/
def tileBody (cfg : Config) (blocksize : Int) (data : List Nat)
    (slabBegZ ox oy : Int) : Post :=
  let xBytes := cfg.SizeX * 8
  let xyBytes := xBytes * cfg.SizeY
  let sxBytes := sendSize * 8
  let sxyBytes := sxBytes * sendSize
  let sxyzBytes := sxyBytes * blocksize
  let endY := if oy + sendSize > cfg.SizeY then cfg.SizeY else oy + sendSize
  let span := (if ox + sendSize > cfg.SizeX then sendSize - (ox + sendSize - cfg.SizeX)
               else sendSize) * 8
  ⟨tileUrl cfg ox oy slabBegZ, sxyzBytes,
    tileZ data xBytes xyBytes sxBytes sxyBytes span oy endY 0 blocksize.toNat (fun _ => 0)⟩

/-- The inner `ox` loop of `main.go`.  Its body unconditionally ends in
`return nil` (after the POST), so whenever `ox < SizeX` the enclosing
function returns after a single body execution and `ox` never advances;
`some r` models that return, `none` models the loop ending normally. -/
def oxLoop (cfg : Config) (blocksize : Int) (dryrun : Bool) (data : List Nat)
    (slabBegZ oy ox : Int) : Option (List Post × Option PErr) :=
  if ox < cfg.SizeX then
    some ((if dryrun then [] else [tileBody cfg blocksize data slabBegZ ox oy]), none)
  else none

/-- The outer `oy` loop (`for oy := 0; oy < SizeY; oy += sendSize`).
Fuel-based structural recursion; `SizeY.toNat` fuel always suffices since
the step is `1024 ≥ 1`, which is how `processSlab` calls it. -/
def oyLoop (cfg : Config) (blocksize : Int) (dryrun : Bool) (data : List Nat)
    (slabBegZ : Int) : Int → Nat → Option (List Post × Option PErr)
  | _, 0 => none
  | oy, n + 1 =>
    if oy < cfg.SizeY then
      match oxLoop cfg blocksize dryrun data slabBegZ oy 0 with
      | some r => some r
      | none => oyLoop cfg blocksize dryrun data slabBegZ (oy + sendSize) n
    else none

/-- `processSlab` of `main.go`: for each directory intersecting the slab,
open `filepath.Join(dir.Path, fmt.Sprintf(dir.Template, slabBegZ))`,
decompress it fully, check the decompressed length against
`xyzBytes = SizeX*8 * SizeY * blocksize`, then run the tile loops (whose
body ends in an unconditional `return nil`). -/
def processSlab (cfg : Config) (blocksize : Int) (env : Env) (dryrun : Bool)
    (slabBegZ : Int) : List SlabDir → List Post × Option PErr
  | [] => ([], none)
  | dir :: rest =>
    let slabEndZ := slabBegZ + blocksize - 1
    let xyzBytes := cfg.SizeX * 8 * cfg.SizeY * blocksize
    if slabBegZ > dir.EndZ ∨ slabEndZ < dir.BegZ then
      processSlab cfg blocksize env dryrun slabBegZ rest
    else
      match env (filename dir slabBegZ) with
      | none => ([], some .fileMissing)
      | some file =>
        match file.gunzip with
        | none => ([], some .gunzipFailed)
        | some data =>
          if (data.length : Int) ≠ xyzBytes then
            ([], some (.sizeMismatch xyzBytes (data.length : Int)))
          else
            match oyLoop cfg blocksize dryrun data slabBegZ 0 cfg.SizeY.toNat with
            | some r => r
            | none => processSlab cfg blocksize env dryrun slabBegZ rest

end Dvid

/-! ## Helper lemmas -/

theorem length_pos_of_ne_empty (a : String) (h : a ≠ "") : 0 < a.length := by
  cases a with
  | mk l =>
    cases l with
    | nil => exact absurd rfl h
    | cons c cs => simp [String.length]

/-! ## C10: filename construction in the multi-directory variant -/

/-- C10: in the multi-directory variant the filename passed to `os.Open`
is the template formatted with `slabBegZ` alone: it equals
`formatTemplate dir.Template slabBegZ`, and it is unchanged under any
change of the directory's `Path` (and Z-range) fields; when `Path` is
nonempty it differs from the filename used by the single-directory
variant, which joins `Path` in front. -/
theorem raveler_filename_ignores_path (p1 p2 : String) (b1 e1 b2 e2 : Int)
    (t : Template) (z : Int) (hp : p1 ≠ "") :
    Raveler.filename ⟨p1, b1, e1, t⟩ z = formatTemplate t z
    ∧ Raveler.filename ⟨p1, b1, e1, t⟩ z = Raveler.filename ⟨p2, b2, e2, t⟩ z
    ∧ Dvid.filename ⟨p1, b1, e1, t⟩ z ≠ Raveler.filename ⟨p1, b1, e1, t⟩ z := by
  refine ⟨rfl, rfl, ?_⟩
  unfold Dvid.filename Raveler.filename joinPath
  rw [if_neg hp]
  intro h
  have hlen := congrArg String.length h
  rw [String.length_append, String.length_append] at hlen
  have hp1 : 0 < p1.length := length_pos_of_ne_empty p1 hp
  have h1 : ("/" : String).length = 1 := rfl
  omega

/-- Witness for `raveler_filename_ignores_path` at a concrete directory. -/
theorem raveler_filename_ignores_path_witness :
    Raveler.filename ⟨"d1", 3, 9, ⟨"f", 2, ".gz"⟩⟩ 7 = formatTemplate ⟨"f", 2, ".gz"⟩ 7
    ∧ Raveler.filename ⟨"d1", 3, 9, ⟨"f", 2, ".gz"⟩⟩ 7
        = Raveler.filename ⟨"d2", 4, 8, ⟨"f", 2, ".gz"⟩⟩ 7
    ∧ Dvid.filename ⟨"d1", 3, 9, ⟨"f", 2, ".gz"⟩⟩ 7
        ≠ Raveler.filename ⟨"d1", 3, 9, ⟨"f", 2, ".gz"⟩⟩ 7 :=
  raveler_filename_ignores_path "d1" "d2" 3 9 4 8 ⟨"f", 2, ".gz"⟩ 7 (by decide)

/-! ## C9: the ordering check's initial running maximum -/

/-- C9 counterexample: this configuration's second directory has
`BegZ = 0 ≤ 0`, yet the ordering check completes without exiting: the
first directory's bad extent (`EndZ = -10 < BegZ = 5`, which only prints)
lowers the running maximum below zero, so a configuration containing a
source with `BegZ < 1` passes validation, contrary to the claim that only
configurations with every source `BegZ ≥ 1` pass. -/
theorem validate_passes_with_nonpositive_begZ_cex :
    validateDirs [⟨"a", 5, -10, ⟨"f", 0, ""⟩⟩, ⟨"b", 0, 7, ⟨"f", 0, ""⟩⟩] = true
    ∧ (⟨"b", 0, 7, ⟨"f", 0, ""⟩⟩ : SlabDir).BegZ ≤ 0
    ∧ (⟨"b", 0, 7, ⟨"f", 0, ""⟩⟩ : SlabDir) ∈
        [(⟨"a", 5, -10, ⟨"f", 0, ""⟩⟩ : SlabDir), ⟨"b", 0, 7, ⟨"f", 0, ""⟩⟩] := by
  decide

/-- C9 (amended): the running maximum starts at `0`, so a configuration
whose FIRST source has `BegZ ≤ 0` is rejected before any processing, and a
configuration that passes has first `BegZ ≥ 1`; each later step requires
`BegZ` strictly greater than the previous directory's `EndZ`.  Because the
bad-extent case does not exit, the previous `EndZ` may be below zero, so a
later source with `BegZ ≤ 0` can still pass validation. -/
theorem validate_first_begZ_amended :
    (∀ (d : SlabDir) (rest : List SlabDir), d.BegZ ≤ 0 → validateDirs (d :: rest) = false)
    ∧ (∀ (d : SlabDir) (rest : List SlabDir), validateDirs (d :: rest) = true → 1 ≤ d.BegZ)
    ∧ (∀ (m : Int) (d : SlabDir) (rest : List SlabDir),
        checkDirsFrom m (d :: rest) = true ↔ (m < d.BegZ ∧ checkDirsFrom d.EndZ rest = true))
    ∧ (∃ dirs : List SlabDir, validateDirs dirs = true ∧ ∃ d ∈ dirs, d.BegZ ≤ 0) := by
  refine ⟨?_, ?_, ?_, ?_⟩
  · intro d rest h
    simp only [validateDirs, checkDirsFrom, if_pos h]
  · intro d rest h
    by_contra hc
    have hle : d.BegZ ≤ 0 := by omega
    simp only [validateDirs, checkDirsFrom, if_pos hle] at h
    exact Bool.noConfusion h
  · intro m d rest
    by_cases h : d.BegZ ≤ m
    · simp only [checkDirsFrom, if_pos h]
      constructor
      · intro hf; exact absurd hf (by simp)
      · intro hx; omega
    · simp only [checkDirsFrom, if_neg h]
      constructor
      · intro hr; exact ⟨by omega, hr⟩
      · intro hx; exact hx.2
  · exact ⟨[⟨"a", 5, -10, ⟨"f", 0, ""⟩⟩, ⟨"b", 0, 7, ⟨"f", 0, ""⟩⟩], by decide,
      ⟨"b", 0, 7, ⟨"f", 0, ""⟩⟩, by decide, by decide⟩

/-- Witness for `validate_first_begZ_amended` at concrete directories. -/
theorem validate_first_begZ_amended_witness :
    validateDirs [(⟨"a", 0, 5, ⟨"f", 0, ""⟩⟩ : SlabDir)] = false
    ∧ (1 : Int) ≤ 3 :=
  ⟨validate_first_begZ_amended.1 ⟨"a", 0, 5, ⟨"f", 0, ""⟩⟩ [] (by decide),
   validate_first_begZ_amended.2.1 ⟨"c", 3, 9, ⟨"f", 0, ""⟩⟩ [] (by decide)⟩

/-! ## C4: pre-processing validation is not fatal for bad extents -/

/-- C4 (the code evaluated at the failing input): a configuration whose
only directory has a nonpositive extent (`EndZ = 3 ≤ BegZ = 5`) passes the
whole pre-processing gate — `main` prints "bad Z range" for it but, unlike
the ordering and thickness checks, does not exit — so slab processing
starts instead of the program terminating fatally before processing. -/
theorem validate_bad_extent_not_fatal :
    mainGate ⟨"u", 10, 10, 32, 0, 99, [⟨"p", 5, 3, ⟨"f", 0, ""⟩⟩]⟩ 32 = true
    ∧ (⟨"p", 5, 3, ⟨"f", 0, ""⟩⟩ : SlabDir).EndZ ≤ (⟨"p", 5, 3, ⟨"f", 0, ""⟩⟩ : SlabDir).BegZ := by
  decide

/-! ## C2: the size-validation gate -/

/-- C2 counterexample: a source artifact whose decompressed length (5)
differs from `SizeX*SizeY*8*Thickness = 16`, consumed through the
exact-coverage fast path of the multi-directory variant: `processSlab`
reports no error and POSTs the raw (still compressed) 3-byte file to the
sink — the artifact is neither decompressed nor size-checked, and its
bytes do reach the sink, contrary to the claim. -/
theorem raveler_fast_path_skips_size_check_cex :
    (Raveler.processSlab ⟨"u", 1, 1, 2, 0, 9, [⟨"p", 1, 5, ⟨"f", 0, ""⟩⟩]⟩ 2
        (fun _ => some ⟨[9, 9, 9], some (List.replicate 5 7)⟩) false (fun _ => 0) 4).err = none
    ∧ (Raveler.processSlab ⟨"u", 1, 1, 2, 0, 9, [⟨"p", 1, 5, ⟨"f", 0, ""⟩⟩]⟩ 2
        (fun _ => some ⟨[9, 9, 9], some (List.replicate 5 7)⟩) false (fun _ => 0) 4).posts.length = 1
    ∧ ((Raveler.processSlab ⟨"u", 1, 1, 2, 0, 9, [⟨"p", 1, 5, ⟨"f", 0, ""⟩⟩]⟩ 2
        (fun _ => some ⟨[9, 9, 9], some (List.replicate 5 7)⟩) false (fun _ => 0) 4).posts.headD
          ⟨"", 0, fun _ => 0⟩).len = 3
    ∧ ((List.replicate 5 7).length : Int) ≠ 1 * 1 * 8 * 2 := by
  decide

/-- C2 (amended): the size gate holds everywhere except the multi-directory
fast path.  In the single-directory (tiling) variant every consumed
artifact is fully decompressed and its length checked against
`SizeX*8*SizeY*blocksize` before any of its bytes are copied or POSTed,
and a mismatch fails the slab with `SizeMismatch`, no bytes used.  In the
multi-directory variant the same gate guards the partial-coverage path:
an intersecting directory that does not cover the slab exactly has its
artifact decompressed and checked, and a mismatch fails with
`SizeMismatch`, leaving the slab buffer and POST list unchanged.  The one
exception, forced by the counterexample: a directory covering the slab
exactly has its raw compressed file POSTed as-is, with no decompression
and no size validation. -/
theorem size_gate_amended (cfg : Config) (blocksize : Int) (env : Env)
    (dir : SlabDir) (rest : List SlabDir) (slabBegZ : Int) (file : FileData)
    (hint : ¬(slabBegZ > dir.EndZ ∨ slabBegZ + blocksize - 1 < dir.BegZ)) :
    (∀ data : List Nat,
        env (Dvid.filename dir slabBegZ) = some file →
        file.gunzip = some data →
        (data.length : Int) ≠ cfg.SizeX * 8 * cfg.SizeY * blocksize →
        Dvid.processSlab cfg blocksize env false slabBegZ (dir :: rest)
          = ([], some (.sizeMismatch (cfg.SizeX * 8 * cfg.SizeY * blocksize)
              (data.length : Int))))
    ∧ (∀ (buf : Buf) (zf : Int) (posts : List Post) (data : List Nat),
        env (Raveler.filename dir slabBegZ) = some file →
        ¬ exactCover slabBegZ (slabBegZ + blocksize - 1) dir →
        file.gunzip = some data →
        (data.length : Int) ≠ cfg.SizeX * cfg.SizeY * 8 * blocksize →
        Raveler.processDirs cfg blocksize env false slabBegZ (dir :: rest) buf zf posts
          = ⟨buf, posts,
             some (.sizeMismatch (cfg.SizeX * cfg.SizeY * 8 * blocksize)
               (data.length : Int))⟩)
    ∧ (∀ (buf : Buf) (zf : Int) (posts : List Post),
        env (Raveler.filename dir slabBegZ) = some file →
        exactCover slabBegZ (slabBegZ + blocksize - 1) dir →
        Raveler.processDirs cfg blocksize env false slabBegZ (dir :: rest) buf zf posts
          = ⟨buf,
             posts ++ [⟨cfg.URI ++ "/0_0_" ++ toString slabBegZ, (file.raw.length : Int),
               fun i => file.raw.getD i.toNat 0⟩],
             none⟩) := by
  refine ⟨?_, ?_, ?_⟩
  · intro data henv hgz hsz
    simp only [Dvid.processSlab, if_neg hint, henv, hgz, if_pos hsz]
  · intro buf zf posts data henv hnex hgz hlen
    have hcond : ¬((if slabBegZ < dir.BegZ then dir.BegZ else slabBegZ) = slabBegZ
        ∧ (if slabBegZ + blocksize - 1 > dir.EndZ then dir.EndZ
           else slabBegZ + blocksize - 1) = slabBegZ + blocksize - 1) := by
      intro hand
      apply hnex
      constructor
      · by_cases h : slabBegZ < dir.BegZ
        · rw [if_pos h] at hand; omega
        · omega
      · by_cases h : slabBegZ + blocksize - 1 > dir.EndZ
        · rw [if_pos h] at hand; omega
        · omega
    simp only [Raveler.processDirs, if_neg hint, henv, if_neg hcond, hgz, if_pos hlen]
  · intro buf zf posts henv hex
    obtain ⟨hex1, hex2⟩ := hex
    have hb : (if slabBegZ < dir.BegZ then dir.BegZ else slabBegZ) = slabBegZ := by
      rw [if_neg]; omega
    have he : (if slabBegZ + blocksize - 1 > dir.EndZ then dir.EndZ
               else slabBegZ + blocksize - 1) = slabBegZ + blocksize - 1 := by
      rw [if_neg]; omega
    simp only [Raveler.processDirs, if_neg hint, henv, hb, he, and_self, if_pos]
    simp

/-- Witness for `size_gate_amended` at a concrete configuration: the
single-directory variant rejects the 1-byte-decompressing artifact with
`SizeMismatch` (expected 16 bytes), while the multi-directory fast path
POSTs the same raw file unchecked. -/
theorem size_gate_amended_witness :
    Dvid.processSlab ⟨"u", 1, 1, 2, 0, 9, [⟨"p", 1, 5, ⟨"f", 0, ""⟩⟩]⟩ 2
        (fun _ => some ⟨[9], some [7]⟩) false 4 [⟨"p", 1, 5, ⟨"f", 0, ""⟩⟩]
      = ([], some (PErr.sizeMismatch ((1 : Int) * 8 * 1 * 2) (([7] : List Nat).length : Int)))
    ∧ Raveler.processDirs ⟨"u", 1, 1, 2, 0, 9, [⟨"p", 1, 5, ⟨"f", 0, ""⟩⟩]⟩ 2
        (fun _ => some ⟨[9], some [7]⟩) false 4 [⟨"p", 1, 5, ⟨"f", 0, ""⟩⟩] (fun _ => 0) 0 []
      = ⟨fun _ => 0,
         [] ++ [⟨"u" ++ "/0_0_" ++ toString (4 : Int), (([9] : List Nat).length : Int),
           fun i => ([9] : List Nat).getD i.toNat 0⟩],
         none⟩ :=
  ⟨(size_gate_amended ⟨"u", 1, 1, 2, 0, 9, [⟨"p", 1, 5, ⟨"f", 0, ""⟩⟩]⟩ 2
      (fun _ => some ⟨[9], some [7]⟩) ⟨"p", 1, 5, ⟨"f", 0, ""⟩⟩ [] 4
      ⟨[9], some [7]⟩ (by decide)).1 [7] rfl rfl (by decide),
   (size_gate_amended ⟨"u", 1, 1, 2, 0, 9, [⟨"p", 1, 5, ⟨"f", 0, ""⟩⟩]⟩ 2
      (fun _ => some ⟨[9], some [7]⟩) ⟨"p", 1, 5, ⟨"f", 0, ""⟩⟩ [] 4
      ⟨[9], some [7]⟩ (by decide)).2.2 (fun _ => 0) 0 [] rfl (by decide)⟩

/-! ## C3: partially covered slabs are not emitted -/

/-- C3 counterexample: slab `[0,1]` (thickness 2) is only partially covered
by the single source range `[1,5]` (1 of 2 planes).  Assembly completes —
the covered plane holds the source byte 7 and the uncovered plane is 0 —
and no error is reported, but the POST list is empty: the partially filled
slab is NOT emitted to the sink, contrary to the claim. -/
theorem raveler_partial_slab_dropped_cex :
    (Raveler.processSlab ⟨"u", 1, 1, 2, 0, 1, [⟨"p", 1, 5, ⟨"f", 0, ""⟩⟩]⟩ 2
        (fun _ => some ⟨[9, 9], some (List.replicate 16 7)⟩) false (fun _ => 99) 0).posts.length = 0
    ∧ (Raveler.processSlab ⟨"u", 1, 1, 2, 0, 1, [⟨"p", 1, 5, ⟨"f", 0, ""⟩⟩]⟩ 2
        (fun _ => some ⟨[9, 9], some (List.replicate 16 7)⟩) false (fun _ => 99) 0).err = none
    ∧ (Raveler.processSlab ⟨"u", 1, 1, 2, 0, 1, [⟨"p", 1, 5, ⟨"f", 0, ""⟩⟩]⟩ 2
        (fun _ => some ⟨[9, 9], some (List.replicate 16 7)⟩) false (fun _ => 99) 0).buf 11 = 7
    ∧ (Raveler.processSlab ⟨"u", 1, 1, 2, 0, 1, [⟨"p", 1, 5, ⟨"f", 0, ""⟩⟩]⟩ 2
        (fun _ => some ⟨[9, 9], some (List.replicate 16 7)⟩) false (fun _ => 99) 0).buf 3 = 0
    ∧ coverLen 0 1 ⟨"p", 1, 5, ⟨"f", 0, ""⟩⟩ = 1 := by
  decide

/-- Helper for C3: the directory loop never POSTs while the accumulated
filled-plane count plus all remaining coverage stays below `blocksize` and
no directory covers the slab exactly. -/
theorem processDirs_no_post_of_partial_cover (cfg : Config) (blocksize : Int) (env : Env)
    (dryrun : Bool) (slabBegZ : Int) :
    ∀ (dirs : List SlabDir) (buf : Buf) (zf : Int) (posts : List Post),
      zf + (coverSum slabBegZ (slabBegZ + blocksize - 1) dirs : Int) < blocksize →
      (∀ dir ∈ dirs, ¬ exactCover slabBegZ (slabBegZ + blocksize - 1) dir) →
      (Raveler.processDirs cfg blocksize env dryrun slabBegZ dirs buf zf posts).posts = posts
  | [], buf, zf, posts, _, _ => rfl
  | dir :: rest, buf, zf, posts, hcov, hex => by
    have hexd := hex dir (List.mem_cons_self dir rest)
    have hexr := fun d hd => hex d (List.mem_cons_of_mem dir hd)
    by_cases hdisj : slabBegZ > dir.EndZ ∨ slabBegZ + blocksize - 1 < dir.BegZ
    · have hcl : coverLen slabBegZ (slabBegZ + blocksize - 1) dir = 0 := by
        unfold coverLen; rw [if_pos hdisj]
      have hcov2 : zf + (coverSum slabBegZ (slabBegZ + blocksize - 1) rest : Int) < blocksize := by
        have : coverSum slabBegZ (slabBegZ + blocksize - 1) (dir :: rest)
            = coverLen slabBegZ (slabBegZ + blocksize - 1) dir
              + coverSum slabBegZ (slabBegZ + blocksize - 1) rest := by
          simp [coverSum]
        rw [this, hcl] at hcov
        omega
      simp only [Raveler.processDirs, if_pos hdisj]
      exact processDirs_no_post_of_partial_cover cfg blocksize env dryrun slabBegZ
        rest buf zf posts hcov2 hexr
    · have hcond : ¬((if slabBegZ < dir.BegZ then dir.BegZ else slabBegZ) = slabBegZ
          ∧ (if slabBegZ + blocksize - 1 > dir.EndZ then dir.EndZ
             else slabBegZ + blocksize - 1) = slabBegZ + blocksize - 1) := by
        intro hand
        apply hexd
        constructor
        · by_cases h : slabBegZ < dir.BegZ
          · rw [if_pos h] at hand; omega
          · omega
        · by_cases h : slabBegZ + blocksize - 1 > dir.EndZ
          · rw [if_pos h] at hand; omega
          · omega
      have hcl : (coverLen slabBegZ (slabBegZ + blocksize - 1) dir : Int)
          = (((if slabBegZ + blocksize - 1 > dir.EndZ then dir.EndZ
               else slabBegZ + blocksize - 1) -
              (if slabBegZ < dir.BegZ then dir.BegZ else slabBegZ) + 1).toNat : Int) := by
        unfold coverLen; rw [if_neg hdisj]
      have hsum : coverSum slabBegZ (slabBegZ + blocksize - 1) (dir :: rest)
          = coverLen slabBegZ (slabBegZ + blocksize - 1) dir
            + coverSum slabBegZ (slabBegZ + blocksize - 1) rest := by
        simp [coverSum]
      simp only [Raveler.processDirs, if_neg hdisj, if_neg hcond]
      cases henv : env (Raveler.filename dir slabBegZ) with
      | none => rfl
      | some file =>
        dsimp only
        cases hgz : file.gunzip with
        | none => rfl
        | some data =>
          dsimp only
          by_cases hsz : (data.length : Int) ≠ cfg.SizeX * cfg.SizeY * 8 * blocksize
          · simp only [if_pos hsz]
          · simp only [if_neg hsz]
            have hzf : zf + (((if slabBegZ + blocksize - 1 > dir.EndZ then dir.EndZ
                 else slabBegZ + blocksize - 1) -
                (if slabBegZ < dir.BegZ then dir.BegZ else slabBegZ) + 1).toNat : Int)
                ≠ blocksize := by
              rw [hsum] at hcov
              push_cast at hcov
              rw [← hcl]
              omega
            rw [if_neg hzf]
            apply processDirs_no_post_of_partial_cover cfg blocksize env dryrun slabBegZ rest
            · rw [hsum] at hcov
              push_cast at hcov
              rw [← hcl]
              omega
            · exact hexr

/-- C3 (amended): assembly of a partially covered slab completes (the
intersecting planes are copied and the remainder stays zero, see C6/C7)
and assembly stops early when the filled count reaches `Thickness`; but a
slab that ends up only partially filled is NOT emitted to the sink: the
engine POSTs a slab only when the filled-plane count reaches exactly
`blocksize` (or a single source covers the slab exactly), so a partially
covered slab produces no sink call at all. -/
theorem raveler_partial_slab_not_emitted (cfg : Config) (blocksize : Int) (env : Env)
    (dryrun : Bool) (prev : Buf) (slabBegZ : Int)
    (hcov : (coverSum slabBegZ (slabBegZ + blocksize - 1) cfg.Directories : Int) < blocksize)
    (hex : ∀ dir ∈ cfg.Directories, ¬ exactCover slabBegZ (slabBegZ + blocksize - 1) dir) :
    (Raveler.processSlab cfg blocksize env dryrun prev slabBegZ).posts = [] :=
  processDirs_no_post_of_partial_cover cfg blocksize env dryrun slabBegZ
    cfg.Directories (Raveler.zeroBuf prev) 0 [] (by omega) hex

/-- Witness for `raveler_partial_slab_not_emitted` at a concrete
partially-covered slab. -/
theorem raveler_partial_slab_not_emitted_witness :
    (Raveler.processSlab ⟨"u", 1, 1, 2, 0, 1, [⟨"q", 3, 9, ⟨"g", 0, ""⟩⟩]⟩ 2
        (fun _ => some ⟨[1], some (List.replicate 16 5)⟩) false (fun _ => 0) 2).posts = [] :=
  raveler_partial_slab_not_emitted ⟨"u", 1, 1, 2, 0, 1, [⟨"q", 3, 9, ⟨"g", 0, ""⟩⟩]⟩ 2
    (fun _ => some ⟨[1], some (List.replicate 16 5)⟩) false (fun _ => 0) 2
    (by decide) (by decide)

/-! ## C1: the tiling variant stops after the first tile -/

/-- C1 (the code evaluated at the failing input): for a slab whose XY
extent requires two tiles (`SizeX = 1025 > 1024`, `SizeY = 1`, so
`tileGrid` enumerates 2 tiles), `processSlab` of `main.go` makes exactly
one POST — the first tile, at origin `(0,0)` — and returns without error:
the unconditional `return nil` at the end of the tile-loop body ends the
slab after its first tile instead of emitting the full tile sequence. -/
theorem dvid_stops_after_first_tile :
    (Dvid.processSlab ⟨"u", 1025, 1, 1, 0, 0, [⟨"p", 0, 0, ⟨"f", 0, ""⟩⟩]⟩ 1
        (fun _ => some ⟨[1], some (List.replicate 8200 3)⟩) false 0
        [⟨"p", 0, 0, ⟨"f", 0, ""⟩⟩]).1.length = 1
    ∧ (Dvid.processSlab ⟨"u", 1025, 1, 1, 0, 0, [⟨"p", 0, 0, ⟨"f", 0, ""⟩⟩]⟩ 1
        (fun _ => some ⟨[1], some (List.replicate 8200 3)⟩) false 0
        [⟨"p", 0, 0, ⟨"f", 0, ""⟩⟩]).2 = none
    ∧ ((Dvid.processSlab ⟨"u", 1025, 1, 1, 0, 0, [⟨"p", 0, 0, ⟨"f", 0, ""⟩⟩]⟩ 1
        (fun _ => some ⟨[1], some (List.replicate 8200 3)⟩) false 0
        [⟨"p", 0, 0, ⟨"f", 0, ""⟩⟩]).1.headD ⟨"", 0, fun _ => 0⟩).url = "u/0_0_0"
    ∧ (tileGrid 1025 1 1024).length = 2 := by
  refine ⟨?_, ?_, ?_, by decide⟩ <;>
    norm_num [Dvid.processSlab, Dvid.oyLoop, Dvid.oxLoop, Dvid.tileBody, Dvid.tileUrl,
      Dvid.sendSize, List.length_replicate] <;> decide

/-! ## C6: per-plane byte fidelity of slab assembly -/

theorem copySeg_out (dst : Buf) (src : List Nat) (dOff sOff len i : Int)
    (h : i < dOff ∨ dOff + len ≤ i) : copySeg dst src dOff sOff len i = dst i := by
  have hn : ¬(dOff ≤ i ∧ i < dOff + len) := by omega
  simp only [copySeg, if_neg hn]

theorem copySeg_in (dst : Buf) (src : List Nat) (dOff sOff len i : Int)
    (h1 : dOff ≤ i) (h2 : i < dOff + len) :
    copySeg dst src dOff sOff len i = src.getD (sOff + (i - dOff)).toNat 0 := by
  simp only [copySeg, if_pos (And.intro h1 h2)]

/-- Planes before `volZ` are untouched by `fillPlanes` started at `volZ`. -/
theorem fillPlanes_frame_lo (data : List Nat) (slabBegZ sB : Int) (hsB : 0 ≤ sB) :
    ∀ (n : Nat) (volZ : Int) (buf : Buf) (i : Int),
      i < (volZ - slabBegZ) * sB →
      Raveler.fillPlanes data slabBegZ sB volZ n buf i = buf i
  | 0, _, _, _, _ => rfl
  | n + 1, volZ, buf, i, h => by
    have hstep : (volZ + 1 - slabBegZ) * sB = (volZ - slabBegZ) * sB + sB := by ring
    have h2 : i < (volZ + 1 - slabBegZ) * sB := by
      rw [hstep]
      have : (volZ - slabBegZ) * sB ≤ (volZ - slabBegZ) * sB + sB := by linarith
      linarith
    simp only [Raveler.fillPlanes]
    rw [fillPlanes_frame_lo data slabBegZ sB hsB n (volZ + 1) _ i h2]
    exact copySeg_out buf data _ _ sB i (Or.inl h)

/-- Planes at or beyond `volZ + n` are untouched by `fillPlanes` started
at `volZ` with fuel `n`. -/
theorem fillPlanes_frame_hi (data : List Nat) (slabBegZ sB : Int) (hsB : 0 ≤ sB) :
    ∀ (n : Nat) (volZ : Int) (buf : Buf) (i : Int),
      (volZ - slabBegZ) * sB + (n : Int) * sB ≤ i →
      Raveler.fillPlanes data slabBegZ sB volZ n buf i = buf i
  | 0, _, _, _, _ => rfl
  | n + 1, volZ, buf, i, h => by
    have key : (volZ + 1 - slabBegZ) * sB + (n : Int) * sB
        = (volZ - slabBegZ) * sB + ((n : Nat) + 1 : Int) * sB := by push_cast; ring
    have h2 : (volZ + 1 - slabBegZ) * sB + (n : Int) * sB ≤ i := by
      rw [key]
      have hc : ((n : Nat) + 1 : Int) * sB = ((n + 1 : Nat) : Int) * sB := by
        norm_cast
      rw [hc]
      exact h
    simp only [Raveler.fillPlanes]
    rw [fillPlanes_frame_hi data slabBegZ sB hsB n (volZ + 1) _ i h2]
    apply copySeg_out
    right
    have hn : 0 ≤ (n : Int) * sB := mul_nonneg (Int.natCast_nonneg n) hsB
    have hc : ((n + 1 : Nat) : Int) * sB = (n : Int) * sB + sB := by push_cast; ring
    rw [hc] at h
    linarith

/-- The copied value: any byte of a plane within the copied window equals
the source byte at the same index. -/
theorem fillPlanes_value (data : List Nat) (slabBegZ sB : Int) (hsB : 0 ≤ sB) :
    ∀ (n : Nat) (volZ0 : Int) (buf : Buf) (volZ i : Int),
      volZ0 ≤ volZ → volZ < volZ0 + n →
      (volZ - slabBegZ) * sB ≤ i → i < (volZ - slabBegZ) * sB + sB →
      Raveler.fillPlanes data slabBegZ sB volZ0 n buf i = data.getD i.toNat 0
  | 0, volZ0, _, volZ, _, h1, h2, _, _ => absurd h2 (by omega)
  | n + 1, volZ0, buf, volZ, i, h1, h2, h3, h4 => by
    by_cases he : volZ = volZ0
    · subst he
      have hexp : (volZ + 1 - slabBegZ) * sB = (volZ - slabBegZ) * sB + sB := by ring
      simp only [Raveler.fillPlanes]
      rw [fillPlanes_frame_lo data slabBegZ sB hsB n (volZ + 1) _ i (by rw [hexp]; exact h4)]
      rw [copySeg_in buf data _ _ sB i h3 h4]
      have harg : (volZ - slabBegZ) * sB + (i - (volZ - slabBegZ) * sB) = i := by ring
      rw [harg]
    · simp only [Raveler.fillPlanes]
      exact fillPlanes_value data slabBegZ sB hsB n (volZ0 + 1) _ volZ i
        (by omega) (by omega) h3 h4

/-- C6: for every Z plane `volZ` in the copied window `[begZ, endZ]`, the
per-plane copy loop of the multi-directory `processSlab` transfers the
plane's full `SizeX*SizeY*8`-byte range from the source data to the slab
buffer at the identical byte offset `(volZ - slabBegZ) * SizeX*SizeY*8`:
every byte `b` of that plane in the assembled buffer equals the source's
byte at the same index. -/
theorem raveler_plane_copy_fidelity (cfg : Config) (data : List Nat)
    (slabBegZ begZ endZ : Int) (buf : Buf)
    (hX : 0 ≤ cfg.SizeX) (hY : 0 ≤ cfg.SizeY)
    (volZ : Int) (h1 : begZ ≤ volZ) (h2 : volZ ≤ endZ)
    (b : Int) (hb0 : 0 ≤ b) (hb : b < cfg.SizeX * cfg.SizeY * 8) :
    Raveler.fillPlanes data slabBegZ (cfg.SizeX * cfg.SizeY * 8) begZ
        ((endZ - begZ + 1).toNat) buf
        ((volZ - slabBegZ) * (cfg.SizeX * cfg.SizeY * 8) + b)
      = data.getD ((volZ - slabBegZ) * (cfg.SizeX * cfg.SizeY * 8) + b).toNat 0 := by
  have hsB : 0 ≤ cfg.SizeX * cfg.SizeY * 8 := by
    have := mul_nonneg hX hY
    linarith
  apply fillPlanes_value data slabBegZ (cfg.SizeX * cfg.SizeY * 8) hsB
    ((endZ - begZ + 1).toNat) begZ buf volZ _ h1 (by omega) (by linarith) (by linarith)

/-- Witness for `raveler_plane_copy_fidelity` at a concrete plane and byte. -/
theorem raveler_plane_copy_fidelity_witness :
    Raveler.fillPlanes (List.replicate 16 7) 0 (1 * 1 * 8) 1 (((2 : Int) - 1 + 1).toNat)
        (fun _ => 0) (((2 : Int) - 0) * (1 * 1 * 8) + 3)
      = (List.replicate 16 7).getD ((((2 : Int) - 0) * (1 * 1 * 8) + 3)).toNat 0 :=
  raveler_plane_copy_fidelity ⟨"u", 1, 1, 2, 0, 9, []⟩ (List.replicate 16 7) 0 1 2
    (fun _ => 0) (by decide) (by decide) 2 (by decide) (by decide) 3 (by decide) (by decide)

/-! ## C7: zeroed buffer and uncovered planes -/

/-- Helper for C7: the directory loop never writes a byte of a plane
`volZ` lying outside every directory's Z range. -/
theorem processDirs_uncovered_frame (cfg : Config) (blocksize : Int) (env : Env)
    (dryrun : Bool) (slabBegZ : Int) (hX : 0 ≤ cfg.SizeX) (hY : 0 ≤ cfg.SizeY)
    (volZ b : Int) (hb0 : 0 ≤ b) (hb : b < cfg.SizeX * cfg.SizeY * 8) :
    ∀ (dirs : List SlabDir) (buf : Buf) (zf : Int) (posts : List Post),
      (∀ dir ∈ dirs, volZ < dir.BegZ ∨ dir.EndZ < volZ) →
      (Raveler.processDirs cfg blocksize env dryrun slabBegZ dirs buf zf posts).buf
          ((volZ - slabBegZ) * (cfg.SizeX * cfg.SizeY * 8) + b)
        = buf ((volZ - slabBegZ) * (cfg.SizeX * cfg.SizeY * 8) + b)
  | [], buf, zf, posts, _ => rfl
  | dir :: rest, buf, zf, posts, h => by
    have hsB : 0 ≤ cfg.SizeX * cfg.SizeY * 8 := by
      have := mul_nonneg hX hY
      linarith
    have hd := h dir (List.mem_cons_self dir rest)
    have hr := fun d hd2 => h d (List.mem_cons_of_mem dir hd2)
    by_cases hdisj : slabBegZ > dir.EndZ ∨ slabBegZ + blocksize - 1 < dir.BegZ
    · simp only [Raveler.processDirs, if_pos hdisj]
      exact processDirs_uncovered_frame cfg blocksize env dryrun slabBegZ hX hY
        volZ b hb0 hb rest buf zf posts hr
    · simp only [Raveler.processDirs, if_neg hdisj]
      cases henv : env (Raveler.filename dir slabBegZ) with
      | none => rfl
      | some file =>
        dsimp only
        set bZ := if slabBegZ < dir.BegZ then dir.BegZ else slabBegZ with hbZ
        set eZ := if slabBegZ + blocksize - 1 > dir.EndZ then dir.EndZ
                  else slabBegZ + blocksize - 1 with heZ
        have hbZge : dir.BegZ ≤ bZ := by rw [hbZ]; split_ifs <;> omega
        have heZle : eZ ≤ dir.EndZ := by rw [heZ]; split_ifs <;> omega
        by_cases hfast : bZ = slabBegZ ∧ eZ = slabBegZ + blocksize - 1
        · rw [if_pos hfast]
        · rw [if_neg hfast]
          cases hgz : file.gunzip with
          | none => rfl
          | some data =>
            dsimp only
            by_cases hsz : (data.length : Int) ≠ cfg.SizeX * cfg.SizeY * 8 * blocksize
            · rw [if_pos hsz]
            · rw [if_neg hsz]
              have hbuf1 : Raveler.fillPlanes data slabBegZ (cfg.SizeX * cfg.SizeY * 8) bZ
                  ((eZ - bZ + 1).toNat) buf
                  ((volZ - slabBegZ) * (cfg.SizeX * cfg.SizeY * 8) + b)
                  = buf ((volZ - slabBegZ) * (cfg.SizeX * cfg.SizeY * 8) + b) := by
                by_cases hn0 : (eZ - bZ + 1).toNat = 0
                · rw [hn0]
                  rfl
                · have hbe : bZ ≤ eZ := by omega
                  rcases hd with hlt | hgt
                  · apply fillPlanes_frame_lo data slabBegZ _ hsB
                    have e1 : (volZ + 1 - slabBegZ) * (cfg.SizeX * cfg.SizeY * 8)
                        = (volZ - slabBegZ) * (cfg.SizeX * cfg.SizeY * 8)
                          + cfg.SizeX * cfg.SizeY * 8 := by ring
                    have e2 : (volZ + 1 - slabBegZ) * (cfg.SizeX * cfg.SizeY * 8)
                        ≤ (bZ - slabBegZ) * (cfg.SizeX * cfg.SizeY * 8) :=
                      mul_le_mul_of_nonneg_right (by omega) hsB
                    linarith
                  · apply fillPlanes_frame_hi data slabBegZ _ hsB
                    have hcast : (((eZ - bZ + 1).toNat : Nat) : Int) = eZ - bZ + 1 := by omega
                    rw [hcast]
                    have e1 : (bZ - slabBegZ) * (cfg.SizeX * cfg.SizeY * 8)
                        + (eZ - bZ + 1) * (cfg.SizeX * cfg.SizeY * 8)
                        = (eZ + 1 - slabBegZ) * (cfg.SizeX * cfg.SizeY * 8) := by ring
                    have e2 : (eZ + 1 - slabBegZ) * (cfg.SizeX * cfg.SizeY * 8)
                        ≤ (volZ - slabBegZ) * (cfg.SizeX * cfg.SizeY * 8) :=
                      mul_le_mul_of_nonneg_right (by omega) hsB
                    linarith
              by_cases hzf : zf + (((eZ - bZ + 1).toNat : Nat) : Int) = blocksize
              · rw [if_pos hzf]
                exact hbuf1
              · rw [if_neg hzf]
                exact (processDirs_uncovered_frame cfg blocksize env dryrun slabBegZ hX hY
                  volZ b hb0 hb rest _ _ posts hr).trans hbuf1

/-- C7: the slab buffer is fully zeroed at the start of each slab's
assembly (the previous iteration's contents never survive), so after the
directory loop every byte of a Z plane covered by no source range is `0`,
for ANY contents of the reused buffer from the prior slab. -/
theorem raveler_uncovered_plane_zero (cfg : Config) (blocksize : Int) (env : Env)
    (dryrun : Bool) (prev : Buf) (slabBegZ : Int)
    (hX : 0 ≤ cfg.SizeX) (hY : 0 ≤ cfg.SizeY)
    (volZ : Int) (hunc : ∀ dir ∈ cfg.Directories, volZ < dir.BegZ ∨ dir.EndZ < volZ)
    (b : Int) (hb0 : 0 ≤ b) (hb : b < cfg.SizeX * cfg.SizeY * 8) :
    (Raveler.processSlab cfg blocksize env dryrun prev slabBegZ).buf
        ((volZ - slabBegZ) * (cfg.SizeX * cfg.SizeY * 8) + b) = 0 :=
  processDirs_uncovered_frame cfg blocksize env dryrun slabBegZ hX hY volZ b hb0 hb
    cfg.Directories (Raveler.zeroBuf prev) 0 [] hunc

/-- Witness for `raveler_uncovered_plane_zero`: plane 1 is covered by no
source range, and its bytes are 0 even though the reused buffer previously
held 42 everywhere. -/
theorem raveler_uncovered_plane_zero_witness :
    (Raveler.processSlab ⟨"u", 1, 1, 2, 0, 9, [⟨"p", 5, 9, ⟨"f", 0, ""⟩⟩]⟩ 2
        (fun _ => none) false (fun _ => 42) 0).buf
        (((1 : Int) - 0) * (1 * 1 * 8) + 2) = 0 :=
  raveler_uncovered_plane_zero ⟨"u", 1, 1, 2, 0, 9, [⟨"p", 5, 9, ⟨"f", 0, ""⟩⟩]⟩ 2
    (fun _ => none) false (fun _ => 42) 0 (by decide) (by decide) 1 (by decide) 2
    (by decide) (by decide)

/-! ## C8: tile buffer geometry in the tiling variant -/

/-- Rows before `sy` are untouched by `tileRows` started at `sy`. -/
theorem tileRows_frame_lo (data : List Nat) (xB sxB span szSrc szDst : Int)
    (hsp0 : 0 ≤ span) (hsp : span ≤ sxB) :
    ∀ (n : Nat) (sy : Int) (buf : Buf) (i : Int),
      i < szDst + sy * sxB →
      Dvid.tileRows data xB sxB span szSrc szDst sy n buf i = buf i
  | 0, _, _, _, _ => rfl
  | n + 1, sy, buf, i, h => by
    have hsxB : 0 ≤ sxB := le_trans hsp0 hsp
    have e : (sy + 1) * sxB = sy * sxB + sxB := by ring
    have h2 : i < szDst + (sy + 1) * sxB := by linarith
    simp only [Dvid.tileRows]
    rw [tileRows_frame_lo data xB sxB span szSrc szDst hsp0 hsp n (sy + 1) _ i h2]
    exact copySeg_out buf data _ _ span i (Or.inl h)

/-- Rows at or beyond `sy + n` are untouched by `tileRows` with fuel `n`. -/
theorem tileRows_frame_hi (data : List Nat) (xB sxB span szSrc szDst : Int)
    (hsp0 : 0 ≤ span) (hsp : span ≤ sxB) :
    ∀ (n : Nat) (sy : Int) (buf : Buf) (i : Int),
      szDst + sy * sxB + (n : Int) * sxB ≤ i →
      Dvid.tileRows data xB sxB span szSrc szDst sy n buf i = buf i
  | 0, _, _, _, _ => rfl
  | n + 1, sy, buf, i, h => by
    have hsxB : 0 ≤ sxB := le_trans hsp0 hsp
    have hcast : ((n + 1 : Nat) : Int) * sxB = (n : Int) * sxB + sxB := by push_cast; ring
    have h' : szDst + sy * sxB + ((n : Int) * sxB + sxB) ≤ i := by rw [← hcast]; linarith
    have e : (sy + 1) * sxB = sy * sxB + sxB := by ring
    have h2 : szDst + (sy + 1) * sxB + (n : Int) * sxB ≤ i := by linarith
    simp only [Dvid.tileRows]
    rw [tileRows_frame_hi data xB sxB span szSrc szDst hsp0 hsp n (sy + 1) _ i h2]
    apply copySeg_out
    right
    have hn : 0 ≤ (n : Int) * sxB := mul_nonneg (Int.natCast_nonneg n) hsxB
    linarith

/-- The copied value of a row byte inside `tileRows`' window. -/
theorem tileRows_value (data : List Nat) (xB sxB span szSrc szDst : Int)
    (hsp0 : 0 ≤ span) (hsp : span ≤ sxB) :
    ∀ (n : Nat) (sy0 : Int) (buf : Buf) (syT b : Int),
      sy0 ≤ syT → syT < sy0 + n → 0 ≤ b → b < span →
      Dvid.tileRows data xB sxB span szSrc szDst sy0 n buf (szDst + syT * sxB + b)
        = data.getD (szSrc + syT * xB + b).toNat 0
  | 0, sy0, _, syT, _, h1, h2, _, _ => absurd h2 (by omega)
  | n + 1, sy0, buf, syT, b, h1, h2, hb0, hbs => by
    have hsxB : 0 ≤ sxB := le_trans hsp0 hsp
    by_cases he : syT = sy0
    · subst he
      have e : (syT + 1) * sxB = syT * sxB + sxB := by ring
      simp only [Dvid.tileRows]
      rw [tileRows_frame_lo data xB sxB span szSrc szDst hsp0 hsp n (syT + 1) _ _
        (by linarith)]
      rw [copySeg_in buf data _ _ span _ (by linarith) (by linarith)]
      have harg : szSrc + syT * xB + (szDst + syT * sxB + b - (szDst + syT * sxB))
          = szSrc + syT * xB + b := by ring
      rw [harg]
    · simp only [Dvid.tileRows]
      exact tileRows_value data xB sxB span szSrc szDst hsp0 hsp n (sy0 + 1) _ syT b
        (by omega) (by omega) hb0 hbs

/-- Buffer bytes below plane `sz`'s row block are untouched by `tileZ`. -/
theorem tileZ_frame_lo (data : List Nat) (xB xyB sxB sxyB span oy endY : Int)
    (hsp0 : 0 ≤ span) (hsp : span ≤ sxB) (hoy : 0 ≤ oy) (hsxyB : 0 ≤ sxyB) :
    ∀ (n : Nat) (sz : Int) (buf : Buf) (i : Int),
      i < sz * sxyB + oy * sxB →
      Dvid.tileZ data xB xyB sxB sxyB span oy endY sz n buf i = buf i
  | 0, _, _, _, _ => rfl
  | n + 1, sz, buf, i, h => by
    have hsxB : 0 ≤ sxB := le_trans hsp0 hsp
    have e : (sz + 1) * sxyB = sz * sxyB + sxyB := by ring
    have h2 : i < (sz + 1) * sxyB + oy * sxB := by linarith
    simp only [Dvid.tileZ]
    rw [tileZ_frame_lo data xB xyB sxB sxyB span oy endY hsp0 hsp hoy hsxyB n (sz + 1) _ i h2]
    exact tileRows_frame_lo data xB sxB span (sz * xyB) (sz * sxyB) hsp0 hsp
      ((endY - oy).toNat) oy buf i h

/-- The copied value of a byte of plane `szT`, row `syT`, inside the `tileZ`
window (rows confined to one plane's block by `endY * sxB ≤ sxyB`). -/
theorem tileZ_value (data : List Nat) (xB xyB sxB sxyB span oy endY : Int)
    (hsp0 : 0 ≤ span) (hsp : span ≤ sxB) (hoy : 0 ≤ oy) (hEnd : endY * sxB ≤ sxyB)
    (hsxyB : 0 ≤ sxyB) :
    ∀ (n : Nat) (sz0 : Int) (buf : Buf) (szT syT b : Int),
      sz0 ≤ szT → szT < sz0 + n → oy ≤ syT → syT < endY → 0 ≤ b → b < span →
      Dvid.tileZ data xB xyB sxB sxyB span oy endY sz0 n buf
          (szT * sxyB + syT * sxB + b)
        = data.getD (szT * xyB + syT * xB + b).toNat 0
  | 0, sz0, _, szT, _, _, h1, h2, _, _, _, _ => absurd h2 (by omega)
  | n + 1, sz0, buf, szT, syT, b, h1, h2, h3, h4, hb0, hbs => by
    have hsxB : 0 ≤ sxB := le_trans hsp0 hsp
    by_cases he : szT = sz0
    · subst he
      simp only [Dvid.tileZ]
      rw [tileZ_frame_lo data xB xyB sxB sxyB span oy endY hsp0 hsp hoy hsxyB n (szT + 1) _ _
        (by
          have e1 : (syT + 1) * sxB = syT * sxB + sxB := by ring
          have e2 : (syT + 1) * sxB ≤ endY * sxB := mul_le_mul_of_nonneg_right (by omega) hsxB
          have e3 : (szT + 1) * sxyB = szT * sxyB + sxyB := by ring
          have e4 : 0 ≤ oy * sxB := mul_nonneg hoy hsxB
          linarith)]
      exact tileRows_value data xB sxB span (szT * xyB) (szT * sxyB) hsp0 hsp
        ((endY - oy).toNat) oy buf syT b h3 (by omega) hb0 hbs
    · simp only [Dvid.tileZ]
      exact tileZ_value data xB xyB sxB sxyB span oy endY hsp0 hsp hoy hEnd hsxyB
        n (sz0 + 1) _ szT syT b (by omega) (by omega) h3 h4 hb0 hbs

/-- C8 counterexample: with `SizeX = 2, SizeY = 1, Thickness = 1` the only
tile is 2×1, so the claim predicts a tile buffer of `2*1*1*8 = 16` bytes;
the POST actually carries `sendSize*8*sendSize*blocksize = 8388608` bytes
(a full-size 1024×1024 tile buffer regardless of the tile's extent). -/
theorem dvid_tile_buffer_size_cex :
    ((Dvid.processSlab ⟨"u", 2, 1, 1, 0, 0, [⟨"p", 0, 0, ⟨"f", 0, ""⟩⟩]⟩ 1
        (fun _ => some ⟨[1], some (List.replicate 16 3)⟩) false 0
        [⟨"p", 0, 0, ⟨"f", 0, ""⟩⟩]).1.headD ⟨"", 0, fun _ => 0⟩).len = 8388608
    ∧ tileGrid 2 1 1024 = [⟨0, 0, 2, 1⟩]
    ∧ (8388608 : Int) ≠ 2 * 1 * 1 * 8 := by
  decide

/-- C8 (amended): the tile POSTed by `main.go` (the first tile of the
first band, by C1) uses a buffer of `sendSize*8*sendSize*blocksize` bytes
— a full-size 1024-edge tile buffer regardless of the tile's clipped
width/height — whose rows are laid out at stride `sendSize*8` (the maximum
edge, not the tile's width), each row holding `span = width*8` copied
bytes from the start (x = 0) of the slab row; the destination offset is
`(ox, oy, slabBegZ)` via the URL suffix. -/
theorem dvid_tile_buffer_amended (cfg : Config) (blocksize : Int) (data : List Nat)
    (slabBegZ ox : Int) (hox : ox < cfg.SizeX) :
    Dvid.oxLoop cfg blocksize false data slabBegZ 0 ox
      = some ([Dvid.tileBody cfg blocksize data slabBegZ ox 0], none)
    ∧ (Dvid.tileBody cfg blocksize data slabBegZ ox 0).len
        = Dvid.sendSize * 8 * Dvid.sendSize * blocksize
    ∧ (Dvid.tileBody cfg blocksize data slabBegZ ox 0).url
        = cfg.URI ++ "/" ++ toString ox ++ "_" ++ toString (0 : Int) ++ "_" ++ toString slabBegZ
    ∧ (∀ sz sy b : Int, 0 ≤ sz → sz < blocksize →
        0 ≤ sy → sy < (if 0 + Dvid.sendSize > cfg.SizeY then cfg.SizeY else 0 + Dvid.sendSize) →
        0 ≤ b →
        b < (if ox + Dvid.sendSize > cfg.SizeX
             then Dvid.sendSize - (ox + Dvid.sendSize - cfg.SizeX) else Dvid.sendSize) * 8 →
        (Dvid.tileBody cfg blocksize data slabBegZ ox 0).bytes
            (sz * (Dvid.sendSize * 8 * Dvid.sendSize) + sy * (Dvid.sendSize * 8) + b)
          = data.getD (sz * (cfg.SizeX * 8 * cfg.SizeY) + sy * (cfg.SizeX * 8) + b).toNat 0) := by
  refine ⟨by simp [Dvid.oxLoop, hox], rfl, rfl, ?_⟩
  intro sz sy b hsz0 hszb hsy0 hsyE hb0 hbs
  have hss : Dvid.sendSize = 1024 := rfl
  have hsp0 : 0 ≤ (if ox + Dvid.sendSize > cfg.SizeX
      then Dvid.sendSize - (ox + Dvid.sendSize - cfg.SizeX) else Dvid.sendSize) * 8 := by
    rw [hss] at *
    split_ifs <;> omega
  have hsp : (if ox + Dvid.sendSize > cfg.SizeX
      then Dvid.sendSize - (ox + Dvid.sendSize - cfg.SizeX) else Dvid.sendSize) * 8
      ≤ Dvid.sendSize * 8 := by
    rw [hss] at *
    split_ifs <;> omega
  have hEnd : (if 0 + Dvid.sendSize > cfg.SizeY then cfg.SizeY else 0 + Dvid.sendSize)
      * (Dvid.sendSize * 8) ≤ Dvid.sendSize * 8 * Dvid.sendSize := by
    rw [hss] at *
    split_ifs <;> omega
  show Dvid.tileZ data (cfg.SizeX * 8) (cfg.SizeX * 8 * cfg.SizeY) (Dvid.sendSize * 8)
      (Dvid.sendSize * 8 * Dvid.sendSize)
      ((if ox + Dvid.sendSize > cfg.SizeX
        then Dvid.sendSize - (ox + Dvid.sendSize - cfg.SizeX) else Dvid.sendSize) * 8)
      0 (if 0 + Dvid.sendSize > cfg.SizeY then cfg.SizeY else 0 + Dvid.sendSize)
      0 blocksize.toNat (fun _ => 0)
      (sz * (Dvid.sendSize * 8 * Dvid.sendSize) + sy * (Dvid.sendSize * 8) + b)
    = data.getD (sz * (cfg.SizeX * 8 * cfg.SizeY) + sy * (cfg.SizeX * 8) + b).toNat 0
  exact tileZ_value data (cfg.SizeX * 8) (cfg.SizeX * 8 * cfg.SizeY) (Dvid.sendSize * 8)
    (Dvid.sendSize * 8 * Dvid.sendSize) _ 0 _ hsp0 hsp le_rfl hEnd (by rw [hss]; omega)
    blocksize.toNat 0 (fun _ => 0) sz sy b hsz0 (by omega) hsy0 hsyE hb0 hbs

/-- Witness for `dvid_tile_buffer_amended` at a concrete partial tile
(width 2 < 1024). -/
theorem dvid_tile_buffer_amended_witness :
    (Dvid.tileBody ⟨"u", 2, 1, 1, 0, 0, []⟩ 1 (List.replicate 16 3) 0 0 0).len
        = Dvid.sendSize * 8 * Dvid.sendSize * 1
    ∧ (Dvid.tileBody ⟨"u", 2, 1, 1, 0, 0, []⟩ 1 (List.replicate 16 3) 0 0 0).bytes
        (0 * (Dvid.sendSize * 8 * Dvid.sendSize) + 0 * (Dvid.sendSize * 8) + 5)
      = (List.replicate 16 3).getD
          ((0 : Int) * ((2 : Int) * 8 * 1) + 0 * ((2 : Int) * 8) + 5).toNat 0 :=
  ⟨(dvid_tile_buffer_amended ⟨"u", 2, 1, 1, 0, 0, []⟩ 1 (List.replicate 16 3) 0 0
      (by decide)).2.1,
   (dvid_tile_buffer_amended ⟨"u", 2, 1, 1, 0, 0, []⟩ 1 (List.replicate 16 3) 0 0
      (by decide)).2.2.2 0 0 5 (by decide) (by decide) (by decide) (by decide)
      (by decide) (by decide)⟩

/-! ## C5: the tile grid partitions the XY extent -/

/-- Elements of `offsetsFrom` are at least the starting offset. -/
theorem offsetsFrom_mem_lower (extent step : Int) (hstep : 0 ≤ step) :
    ∀ (n : Nat) (o u : Int), u ∈ offsetsFrom extent step o n → o ≤ u
  | 0, o, u, h => absurd h (List.not_mem_nil u)
  | n + 1, o, u, h => by
    by_cases ho : o < extent
    · simp only [offsetsFrom, if_pos ho, List.mem_cons] at h
      rcases h with rfl | h
      · exact le_refl u
      · have := offsetsFrom_mem_lower extent step hstep n (o + step) u h
        omega
    · simp only [offsetsFrom, if_neg ho] at h
      exact absurd h (List.not_mem_nil u)

/-- Characterization of `offsetsFrom` membership, given enough fuel: the
elements are exactly the multiples of `step` from `o` that are below the
extent. -/
theorem offsetsFrom_mem (extent step : Int) (hstep : 0 < step) :
    ∀ (n : Nat) (o : Int), (extent - o).toNat ≤ n →
      ∀ u : Int, u ∈ offsetsFrom extent step o n ↔
        (∃ k : Nat, u = o + (k : Int) * step) ∧ u < extent
  | 0, o, hf, u => by
    have ho : extent ≤ o := by omega
    simp only [offsetsFrom, List.not_mem_nil, false_iff]
    rintro ⟨⟨k, hk⟩, hu⟩
    have hK : 0 ≤ (k : Int) * step := mul_nonneg (Int.natCast_nonneg k) hstep.le
    linarith
  | n + 1, o, hf, u => by
    by_cases ho : o < extent
    · simp only [offsetsFrom, if_pos ho, List.mem_cons]
      constructor
      · rintro (rfl | hmem)
        · exact ⟨⟨0, by simp⟩, ho⟩
        · obtain ⟨⟨k, hk⟩, hu⟩ :=
            (offsetsFrom_mem extent step hstep n (o + step) (by omega) u).mp hmem
          refine ⟨⟨k + 1, ?_⟩, hu⟩
          have e : ((k + 1 : Nat) : Int) * step = (k : Int) * step + step := by
            push_cast; ring
          rw [e]; linarith
      · rintro ⟨⟨k, hk⟩, hu⟩
        cases k with
        | zero => left; simpa using hk
        | succ k =>
          right
          apply (offsetsFrom_mem extent step hstep n (o + step) (by omega) u).mpr
          refine ⟨⟨k, ?_⟩, hu⟩
          have e : ((k + 1 : Nat) : Int) * step = (k : Int) * step + step := by
            push_cast; ring
          rw [e] at hk
          linarith
    · simp only [offsetsFrom, if_neg ho, List.not_mem_nil, false_iff]
      rintro ⟨⟨k, hk⟩, hu⟩
      have hK : 0 ≤ (k : Int) * step := mul_nonneg (Int.natCast_nonneg k) hstep.le
      linarith

/-- The offsets are listed in strictly increasing order. -/
theorem offsetsFrom_pairwise (extent step : Int) (hstep : 0 < step) :
    ∀ (n : Nat) (o : Int), List.Pairwise (· < ·) (offsetsFrom extent step o n)
  | 0, _ => List.Pairwise.nil
  | n + 1, o => by
    by_cases ho : o < extent
    · simp only [offsetsFrom, if_pos ho]
      refine List.Pairwise.cons ?_ (offsetsFrom_pairwise extent step hstep n (o + step))
      intro u hu
      have := offsetsFrom_mem_lower extent step hstep.le n (o + step) u hu
      omega
    · simp only [offsetsFrom, if_neg ho]
      exact List.Pairwise.nil

/-- Every in-extent coordinate lies in exactly one offset's block. -/
theorem offsets_cover (extent step : Int) (hstep : 0 < step)
    (x : Int) (hx0 : 0 ≤ x) (hx : x < extent) :
    ∃! u : Int, u ∈ offsetsFrom extent step 0 extent.toNat ∧ u ≤ x ∧ x < u + step := by
  have hdiv0 : 0 ≤ x / step := Int.ediv_nonneg hx0 hstep.le
  have hmod0 : 0 ≤ x % step := Int.emod_nonneg x (ne_of_gt hstep)
  have hmodlt : x % step < step := Int.emod_lt_of_pos x hstep
  have hdm : step * (x / step) + x % step = x := Int.ediv_add_emod x step
  refine ⟨step * (x / step), ⟨?_, by linarith, by linarith⟩, ?_⟩
  · apply (offsetsFrom_mem extent step hstep extent.toNat 0 (by omega) _).mpr
    refine ⟨⟨(x / step).toNat, ?_⟩, by linarith⟩
    rw [Int.toNat_of_nonneg hdiv0]; ring
  · rintro u ⟨humem, hule, hult⟩
    obtain ⟨⟨k, hk⟩, hu⟩ :=
      (offsetsFrom_mem extent step hstep extent.toNat 0 (by omega) u).mp humem
    have hkd : (k : Int) = x / step := by
      rcases lt_trichotomy ((k : Int)) (x / step) with hlt | heq | hgt
      · exfalso
        have h1 : (k : Int) + 1 ≤ x / step := by omega
        have h2 : ((k : Int) + 1) * step ≤ (x / step) * step :=
          mul_le_mul_of_nonneg_right h1 hstep.le
        have e1 : ((k : Int) + 1) * step = (k : Int) * step + step := by ring
        have e2 : (x / step) * step = step * (x / step) := by ring
        linarith
      · exact heq
      · exfalso
        have h1 : x / step + 1 ≤ (k : Int) := by omega
        have h2 : (x / step + 1) * step ≤ (k : Int) * step :=
          mul_le_mul_of_nonneg_right h1 hstep.le
        have e1 : (x / step + 1) * step = step * (x / step) + step := by ring
        linarith
    rw [hk, hkd]; ring

/-- Pairwise over a `flatMap`, from pairwise inside each block and pairwise
across blocks. -/
theorem pairwise_flatMap {α β : Type} {R : β → β → Prop} {f : α → List β} :
    ∀ {l : List α}, (∀ a ∈ l, (f a).Pairwise R) →
      l.Pairwise (fun a1 a2 => ∀ x ∈ f a1, ∀ y ∈ f a2, R x y) →
      (l.flatMap f).Pairwise R
  | [], _, _ => by simp
  | a :: l, h1, h2 => by
    rw [List.flatMap_cons, List.pairwise_append]
    obtain ⟨hhead, htail⟩ := List.pairwise_cons.mp h2
    refine ⟨h1 a (List.mem_cons_self a l),
      pairwise_flatMap (fun b hb => h1 b (List.mem_cons_of_mem a hb)) htail, ?_⟩
    intro x hx y hy
    obtain ⟨b, hb, hyb⟩ := List.mem_flatMap.mp hy
    exact hhead b hb x hx y hyb

/-- Membership in `tileGrid`: exactly the tiles built from one Y offset and
one X offset. -/
theorem tileGrid_mem (eX eY me : Int) (t : TileRect) :
    t ∈ tileGrid eX eY me ↔
      ∃ oy, oy ∈ offsetsFrom eY me 0 eY.toNat ∧
        ∃ ox, ox ∈ offsetsFrom eX me 0 eX.toNat ∧
          t = ⟨ox, oy, tileW eX ox me, tileW eY oy me⟩ := by
  simp only [tileGrid, List.mem_flatMap, List.mem_map]
  constructor
  · rintro ⟨oy, hoy, ox, hox, rfl⟩
    exact ⟨oy, hoy, ox, hox, rfl⟩
  · rintro ⟨oy, hoy, ox, hox, rfl⟩
    exact ⟨oy, hoy, ox, hox, rfl⟩

/-- C5: for positive extents and a positive maximum edge, the tiles of
`tileGrid` exactly partition `[0,eX) × [0,eY)` — every point lies in
exactly one tile — no tile has zero area, each tile's width and height are
the maximum edge clipped to the remaining extent (so they equal `me`
whenever a full edge fits), and the tiles are listed in row-major order
(`oy` strictly increasing, and within one `oy` band `ox` strictly
increasing). -/
theorem tileGrid_partition (eX eY me : Int) (hX : 0 < eX) (hY : 0 < eY) (hm : 0 < me) :
    (∀ x y : Int, 0 ≤ x → x < eX → 0 ≤ y → y < eY →
      ∃! t : TileRect, t ∈ tileGrid eX eY me ∧ inTile t x y)
    ∧ (∀ t ∈ tileGrid eX eY me, 0 < t.w ∧ 0 < t.h)
    ∧ (∀ t ∈ tileGrid eX eY me,
        t.w = min me (eX - t.ox) ∧ t.h = min me (eY - t.oy)
        ∧ (t.ox + me ≤ eX → t.w = me) ∧ (t.oy + me ≤ eY → t.h = me))
    ∧ List.Pairwise (fun a b : TileRect => a.oy < b.oy ∨ (a.oy = b.oy ∧ a.ox < b.ox))
        (tileGrid eX eY me) := by
  have hxlt : ∀ u, u ∈ offsetsFrom eX me 0 eX.toNat → 0 ≤ u ∧ u < eX := by
    intro u hu
    obtain ⟨⟨k, hk⟩, hlt⟩ := (offsetsFrom_mem eX me hm eX.toNat 0 (by omega) u).mp hu
    have hK : 0 ≤ (k : Int) * me := mul_nonneg (Int.natCast_nonneg k) hm.le
    constructor
    · linarith
    · exact hlt
  have hylt : ∀ u, u ∈ offsetsFrom eY me 0 eY.toNat → 0 ≤ u ∧ u < eY := by
    intro u hu
    obtain ⟨⟨k, hk⟩, hlt⟩ := (offsetsFrom_mem eY me hm eY.toNat 0 (by omega) u).mp hu
    have hK : 0 ≤ (k : Int) * me := mul_nonneg (Int.natCast_nonneg k) hm.le
    constructor
    · linarith
    · exact hlt
  refine ⟨?_, ?_, ?_, ?_⟩
  · intro x y hx0 hx hy0 hy
    obtain ⟨ux, ⟨huxm, huxle, huxlt⟩, huxuniq⟩ := offsets_cover eX me hm x hx0 hx
    obtain ⟨uy, ⟨huym, huyle, huylt⟩, huyuniq⟩ := offsets_cover eY me hm y hy0 hy
    refine ⟨⟨ux, uy, tileW eX ux me, tileW eY uy me⟩, ⟨?_, ?_⟩, ?_⟩
    · exact (tileGrid_mem eX eY me _).mpr ⟨uy, huym, ux, huxm, rfl⟩
    · refine ⟨huxle, ?_, huyle, ?_⟩
      · show x < ux + tileW eX ux me
        unfold tileW
        split_ifs <;> omega
      · show y < uy + tileW eY uy me
        unfold tileW
        split_ifs <;> omega
    · rintro t ⟨htm, htin⟩
      obtain ⟨oy, hoym, ox, hoxm, rfl⟩ := (tileGrid_mem eX eY me t).mp htm
      obtain ⟨hin1, hin2, hin3, hin4⟩ := htin
      have hwx : tileW eX ox me ≤ me := by unfold tileW; split_ifs <;> omega
      have hwy : tileW eY oy me ≤ me := by unfold tileW; split_ifs <;> omega
      have hox : ox = ux := huxuniq ox ⟨hoxm, hin1, by dsimp at hin2; omega⟩
      have hoy : oy = uy := huyuniq oy ⟨hoym, hin3, by dsimp at hin4; omega⟩
      rw [hox, hoy]
  · intro t ht
    obtain ⟨oy, hoym, ox, hoxm, rfl⟩ := (tileGrid_mem eX eY me t).mp ht
    have h1 := hxlt ox hoxm
    have h2 := hylt oy hoym
    constructor
    · show 0 < tileW eX ox me
      unfold tileW
      split_ifs <;> omega
    · show 0 < tileW eY oy me
      unfold tileW
      split_ifs <;> omega
  · intro t ht
    obtain ⟨oy, hoym, ox, hoxm, rfl⟩ := (tileGrid_mem eX eY me t).mp ht
    have h1 := hxlt ox hoxm
    have h2 := hylt oy hoym
    refine ⟨?_, ?_, ?_, ?_⟩
    · show tileW eX ox me = min me (eX - ox)
      unfold tileW
      split_ifs <;> omega
    · show tileW eY oy me = min me (eY - oy)
      unfold tileW
      split_ifs <;> omega
    · intro hfit
      dsimp only at hfit
      show tileW eX ox me = me
      unfold tileW
      split_ifs <;> omega
    · intro hfit
      dsimp only at hfit
      show tileW eY oy me = me
      unfold tileW
      split_ifs <;> omega
  · apply pairwise_flatMap
    · intro oy hoy
      apply List.pairwise_map.mpr
      apply List.Pairwise.imp ?_ (offsetsFrom_pairwise eX me hm eX.toNat 0)
      intro a b hab
      exact Or.inr ⟨rfl, hab⟩
    · apply List.Pairwise.imp ?_ (offsetsFrom_pairwise eY me hm eY.toNat 0)
      intro a b hab
      intro t1 ht1 t2 ht2
      obtain ⟨ox1, _, rfl⟩ := List.mem_map.mp ht1
      obtain ⟨ox2, _, rfl⟩ := List.mem_map.mp ht2
      exact Or.inl hab

/-- Witness for `tileGrid_partition` at the concrete grid
`tileGrid 3 2 2` (a clipped 3×2 extent with edge 2). -/
theorem tileGrid_partition_witness :
    ((0 : Int) < 3 ∧ (0 : Int) < 2)
    ∧ (∀ x y : Int, 0 ≤ x → x < 3 → 0 ≤ y → y < 2 →
        ∃! t : TileRect, t ∈ tileGrid 3 2 2 ∧ inTile t x y) :=
  ⟨⟨by decide, by decide⟩, (tileGrid_partition 3 2 2 (by decide) (by decide) (by decide)).1⟩
